import Mathlib

/-!
Verification of the terminal raycaster (`game-test.py`).

Shallow embedding: Python floats are modelled as real numbers (exact
rationals where the code only manipulates timestamps), Python `int()`
truncation-toward-zero as `pyInt`, the fixed `for d in range(1, 400)`
ray-march as a fuel recursion, and the curses screen writes as an explicit
list of `ScreenWrite` records.  The global `MAP` of the source is a
concrete `List String`; `cast_ray` takes the grid as a parameter (the
source reads the global), so that properties about other grids are
statable.
-/

namespace Raycaster

/-- Python `int(x)`: truncation toward zero. -/
noncomputable def pyInt (x : ℝ) : ℤ :=
  if 0 ≤ x then ⌊x⌋ else ⌈x⌉

/-! ### Configuration constants (source lines 18-22, 62) -/

/-- `KEY_HOLD_TIME = 0.32` (seconds). -/
def KEY_HOLD_TIME : ℚ := 0.32

/-- `MOVE_STEP = 0.06` (map units per frame). -/
def MOVE_STEP : ℝ := 0.06

/-- `ROT_STEP = 0.04` (radians per frame). -/
def ROT_STEP : ℝ := 0.04

/-- `TILT_STEP = 1` (rows per tilt press). -/
def TILT_STEP : ℤ := 1

/-- `TILT_LIMIT = 10`. -/
def TILT_LIMIT : ℤ := 10

/-- `FOV = math.radians(60)`. -/
noncomputable def FOV : ℝ := 60 * (Real.pi / 180)

/-! ### The map grid (source lines 27-34) -/

/-- The fixed `MAP` of the source: 6 rows of 12 cells, wall border. -/
def MAP : List String :=
  [ "############",
    "#..........#",
    "#..........#",
    "#..........#",
    "#..........#",
    "############" ]

/-- Cell lookup `grid[r][c]` (used by the source only after bounds checks,
so the default is irrelevant at all use sites). -/
def cellAt (grid : List String) (r c : ℤ) : Char :=
  ((grid.getD r.toNat "").toList.getD c.toNat '?')

/-! ### Textures and shading ramps (source lines 39-53) -/

/-- `TEXTURE`: the wall texture rows. -/
def TEXTURE : List String :=
  [ "@@###%%%***",
    "@###%%%***+",
    "##%%**++---",
    "#%%**++---.",
    "%%%**+---..",
    "%%**+--....",
    "%**+--.....",
    "**+--......" ]

/-- `TEX_W = len(TEXTURE[0])`. -/
def TEX_W : ℕ := (TEXTURE.headD "").length

/-- `TEX_H = len(TEXTURE)`. -/
def TEX_H : ℕ := TEXTURE.length

/-- `CEILING` shading ramp. -/
def CEILING : String := ".-+*%#@"

/-- `FLOOR` shading ramp. -/
def FLOOR : String := ".-+*%#@"

/-! ### Input debouncer (source lines 67-80, 180) -/

/-- `last_seen.get(name, 0.0)`: the debounce map, modelled as an
association list where the most recent assignment is at the head. -/
def lastSeenGet (s : List (String × ℚ)) (k : String) : ℚ :=
  (s.lookup k).getD 0

/-- `last_seen[name] = t` (dict assignment). -/
def record (s : List (String × ℚ)) (k : String) (t : ℚ) : List (String × ℚ) :=
  (k, t) :: s

/-- `is_held(name, now)` (source lines 77-80). -/
def is_held (s : List (String × ℚ)) (k : String) (now : ℚ) : Bool :=
  decide (now - lastSeenGet s k ≤ KEY_HOLD_TIME)

/-! ### Ray caster (source lines 85-99) -/

/-- Result of `cast_ray`: `(distance, hit_x, hit_y, is_vertical_face)`. -/
structure RayHit where
  distance : ℝ
  hit_x : ℝ
  hit_y : ℝ
  is_vertical_face : Bool

/-- Sample x-coordinate at step `d`: `px + cos_a * d * 0.03`. -/
noncomputable def sampleX (px cosA : ℝ) (d : ℕ) : ℝ := px + cosA * d * 0.03

/-- Sample y-coordinate at step `d`: `py + sin_a * d * 0.03`. -/
noncomputable def sampleY (py sinA : ℝ) (d : ℕ) : ℝ := py + sinA * d * 0.03

/-- Out-of-bounds test of source line 93:
`int(y) < 0 or int(y) >= len(MAP) or int(x) < 0 or int(x) >= len(MAP[0])`. -/
def oob (grid : List String) (x y : ℝ) : Prop :=
  pyInt y < 0 ∨ (grid.length : ℤ) ≤ pyInt y ∨
  pyInt x < 0 ∨ ((grid.headD "").length : ℤ) ≤ pyInt x

/-- The march loop exits at step `d` iff the sample is out of bounds or on
a wall cell. -/
noncomputable def exitAt (grid : List String) (px py cosA sinA : ℝ) (d : ℕ) : Prop :=
  oob grid (sampleX px cosA d) (sampleY py sinA d) ∨
  cellAt grid (pyInt (sampleY py sinA d)) (pyInt (sampleX px cosA d)) = '#'

open Classical in
/-- The body of `for d in range(1, 400)` (source lines 89-99); `fuel`
counts the remaining iterations, so the call at step `d` carries
`fuel = 400 - d` and falling through the loop returns the fallback. -/
noncomputable def castLoop (grid : List String) (px py cosA sinA : ℝ) :
    ℕ → ℕ → RayHit
  | _, 0 => ⟨15, px, py, false⟩
  | d, fuel + 1 =>
    if oob grid (sampleX px cosA d) (sampleY py sinA d) then
      ⟨(d : ℝ) * 0.03, sampleX px cosA d, sampleY py sinA d, false⟩
    else if cellAt grid (pyInt (sampleY py sinA d)) (pyInt (sampleX px cosA d)) = '#' then
      ⟨(d : ℝ) * 0.03, sampleX px cosA d, sampleY py sinA d,
        if |cosA| > |sinA| then true else false⟩
    else
      castLoop grid px py cosA sinA (d + 1) fuel

/-- `cast_ray(px, py, angle)` (source lines 85-99), with the grid made an
explicit parameter (the source reads the global `MAP`). -/
noncomputable def cast_ray (grid : List String) (px py angle : ℝ) : RayHit :=
  castLoop grid px py (Real.cos angle) (Real.sin angle) 1 399

/-! ### Scene renderer (source lines 104-145) -/

/-- `wall_h = int(h / (dist + 1e-6))` (source line 113). -/
noncomputable def wall_h (h : ℕ) (dist : ℝ) : ℤ :=
  pyInt ((h : ℝ) / (dist + 1e-6))

/-- `horizon = h // 2` (source line 107). -/
def horizon (h : ℕ) : ℕ := h / 2

/-- `start = max(0, horizon - wall_h//2 - camera_tilt)` (source line 114). -/
noncomputable def sliceStart (h : ℕ) (dist : ℝ) (tilt : ℤ) : ℤ :=
  max 0 ((horizon h : ℤ) - (wall_h h dist).fdiv 2 - tilt)

/-- `end = min(h, horizon + wall_h//2 - camera_tilt)` (source line 115). -/
noncomputable def sliceEnd (h : ℕ) (dist : ℝ) (tilt : ℤ) : ℤ :=
  min (h : ℤ) ((horizon h : ℤ) + (wall_h h dist).fdiv 2 - tilt)

/-- Shading level for ceiling/floor rows (source lines 123, 143):
`0 if dy <= 0 else min(int((h / (dy + 1)) / 2), len(ramp) - 1)`. -/
noncomputable def shadeLvl (h : ℕ) (dy : ℤ) (ramp : String) : ℤ :=
  if dy ≤ 0 then 0
  else min (pyInt (((h : ℝ) / ((dy : ℝ) + 1)) / 2)) ((ramp.length : ℤ) - 1)

/-- One `stdscr.addstr(row, col, ch, color_pair)` call. -/
structure ScreenWrite where
  row : ℤ
  col : ℕ
  ch : Char
  color : ℕ

open Classical in
/-- The body of the per-column loop of `render_scene` (source lines
110-145): the ceiling, wall and floor writes for column `col`. -/
noncomputable def renderColumn (h w : ℕ) (px py ang : ℝ) (tilt : ℤ)
    (col : ℕ) : List ScreenWrite :=
  let ray_angle := ang - FOV / 2 + ((col : ℝ) / (w : ℝ)) * FOV
  let r := cast_ray MAP px py ray_angle
  let s := sliceStart h r.distance tilt
  let e := sliceEnd h r.distance tilt
  let tex_x : ℝ :=
    if r.is_vertical_face then r.hit_y - pyInt r.hit_y else r.hit_x - pyInt r.hit_x
  let tx : ℤ := min ((TEX_W : ℤ) - 1) (max 0 (pyInt (tex_x * TEX_W)))
  let ceil := (List.range s.toNat).map (fun row =>
    ⟨(row : ℤ), col,
      CEILING.toList.getD (shadeLvl h ((horizon h : ℤ) - row + tilt) CEILING).toNat '?',
      3⟩)
  let wallRows := (List.range (e - s).toNat).map (fun i =>
    let row := s + i
    let rel : ℝ := ((row - s : ℤ) : ℝ) / ((max 1 (e - s) : ℤ) : ℝ)
    let ty : ℤ := min ((TEX_H : ℤ) - 1) (pyInt (rel * TEX_H))
    let ch := (TEXTURE.getD ty.toNat "").toList.getD tx.toNat '?'
    let color : ℕ :=
      if (ty : ℝ) < TEX_H * 0.33 then 1 else if (ty : ℝ) < TEX_H * 0.66 then 2 else 4
    ⟨row, col, ch, color⟩)
  let floorRows := (List.range ((h : ℤ) - e).toNat).map (fun i =>
    let row := e + i
    ⟨row, col,
      FLOOR.toList.getD (shadeLvl h (row - (horizon h : ℤ) + tilt) FLOOR).toNat '?',
      5⟩)
  ceil ++ wallRows ++ floorRows

/-- `render_scene` (source lines 104-145), as the list of emitted screen
writes: columns `0 .. max(0, w-1) - 1`. -/
noncomputable def render_scene (h w : ℕ) (px py ang : ℝ) (tilt : ℤ) :
    List ScreenWrite :=
  (List.range (max 0 (w - 1))).flatMap (renderColumn h w px py ang tilt)

/-! ### Motion controller (source lines 226-254) -/

/-- Accumulated `move_x` (source lines 226-240). -/
noncomputable def moveX (hw hs ha hd : Bool) (ang : ℝ) : ℝ :=
  (if hw then Real.cos ang else 0) - (if hs then Real.cos ang else 0)
  + (if ha then Real.sin ang else 0) - (if hd then Real.sin ang else 0)

/-- Accumulated `move_y` (source lines 226-240). -/
noncomputable def moveY (hw hs ha hd : Bool) (ang : ℝ) : ℝ :=
  (if hw then Real.sin ang else 0) - (if hs then Real.sin ang else 0)
  - (if ha then Real.cos ang else 0) + (if hd then Real.cos ang else 0)

/-- The candidate position (source lines 243-248):
`L = hypot(move_x, move_y); nx = px + move_x/L*MOVE_STEP; ny = ...`. -/
noncomputable def candidate (hw hs ha hd : Bool) (ang px py : ℝ) : ℝ × ℝ :=
  let L := Real.sqrt (moveX hw hs ha hd ang ^ 2 + moveY hw hs ha hd ang ^ 2)
  (px + moveX hw hs ha hd ang / L * MOVE_STEP,
   py + moveY hw hs ha hd ang / L * MOVE_STEP)

/-- The collision/bounds check of source line 251 for a position
`p = (x, y)`: `0 <= int(y) < len(MAP) and 0 <= int(x) < len(MAP[0]) and
MAP[int(y)][int(x)] == "."`.  This is also exactly the invariant of claim
C1: the truncated cell is an in-bounds floor cell of `MAP`. -/
noncomputable def posInv (p : ℝ × ℝ) : Prop :=
  0 ≤ pyInt p.2 ∧ pyInt p.2 < (MAP.length : ℤ) ∧
  0 ≤ pyInt p.1 ∧ pyInt p.1 < ((MAP.headD "").length : ℤ) ∧
  cellAt MAP (pyInt p.2) (pyInt p.1) = '.'

open Classical in
/-- One frame of the movement logic (source lines 242-254): if the move
vector is nonzero, commit the candidate exactly when it passes the
collision/bounds check; otherwise leave the position unchanged. -/
noncomputable def moveUpdate (hw hs ha hd : Bool) (ang : ℝ) (p : ℝ × ℝ) : ℝ × ℝ :=
  if moveX hw hs ha hd ang ≠ 0 ∨ moveY hw hs ha hd ang ≠ 0 then
    if posInv (candidate hw hs ha hd ang p.1 p.2) then
      candidate hw hs ha hd ang p.1 p.2
    else p
  else p

/-! ### Tilt update (source lines 218-223) -/

/-- One tick of the tilt logic: `up` applies
`camera_tilt = max(-TILT_LIMIT, camera_tilt - TILT_STEP)`, then `down`
applies `camera_tilt = min(TILT_LIMIT, camera_tilt + TILT_STEP)`. -/
def tiltStep (up down : Bool) (t : ℤ) : ℤ :=
  let t1 := if up then max (-TILT_LIMIT) (t - TILT_STEP) else t
  if down then min TILT_LIMIT (t1 + TILT_STEP) else t1

/-! ### Auxiliary concrete grids used to settle the ray-caster claims -/

/-- A 2 by 2 grid with no wall cell anywhere. -/
def noWallGrid : List String := ["..", ".."]

/-- A 30 by 30 all-floor grid: large enough that a ray from its center
stays in bounds for the whole step budget. -/
def bigGrid : List String := List.replicate 30 (String.mk (List.replicate 30 '.'))

/-- A 1 by 1 grid whose only cell is a wall. -/
def oneWallGrid : List String := ["#"]

/-! ## Lemmas and claim theorems -/

/-- On nonnegative reals, Python truncation is the floor. -/
theorem pyInt_of_nonneg {x : ℝ} (h : 0 ≤ x) : pyInt x = ⌊x⌋ := if_pos h

/-- Python truncation of a value below 1 is at most 0. -/
theorem pyInt_le_zero {x : ℝ} (h : x < 1) : pyInt x ≤ 0 := by
  unfold pyInt
  split
  · have : ⌊x⌋ < 1 := Int.floor_lt.mpr (by exact_mod_cast h)
    omega
  · have hx : x ≤ 0 := le_of_not_le (by assumption)
    simpa using Int.ceil_le.mpr (by simpa using hx)

/-- Python truncation is at least any natural number below the value. -/
theorem le_pyInt {n : ℕ} {x : ℝ} (h : (n : ℝ) ≤ x) : (n : ℤ) ≤ pyInt x := by
  have h0 : (0 : ℝ) ≤ x := le_trans (by positivity) h
  rw [pyInt_of_nonneg h0]
  exact Int.le_floor.mpr (by exact_mod_cast h)

/-- Python truncation stays below any integer bound above the value. -/
theorem pyInt_lt {n : ℤ} {x : ℝ} (h0 : 0 ≤ x) (h : x < (n : ℝ)) : pyInt x < n := by
  rw [pyInt_of_nonneg h0]
  exact Int.floor_lt.mpr h

/-- Evaluation of `pyInt` at an integer literal. -/
theorem pyInt_intCast (n : ℤ) (hn : 0 ≤ n) : pyInt ((n : ℝ)) = n := by
  rw [pyInt_of_nonneg (by exact_mod_cast hn)]
  exact Int.floor_intCast n

/-- C7: `is_held` is the sliding-window test: it is true iff
`now - last_seen(k) ≤ KEY_HOLD_TIME`; immediately after recording `k` at
`t0` the key is held at `t0`; and `KEY_HOLD_TIME + eps` after `t0` (for
any `eps > 0`) it is no longer held. -/
theorem c7_is_held_window :
    (∀ (s : List (String × ℚ)) (k : String) (now : ℚ),
      is_held s k now = true ↔ now - lastSeenGet s k ≤ KEY_HOLD_TIME) ∧
    (∀ (s : List (String × ℚ)) (k : String) (t0 : ℚ),
      is_held (record s k t0) k t0 = true) ∧
    (∀ (s : List (String × ℚ)) (k : String) (t0 eps : ℚ), 0 < eps →
      is_held (record s k t0) k (t0 + KEY_HOLD_TIME + eps) = false) := by
  refine ⟨fun s k now => by simp [is_held], fun s k t0 => ?_, fun s k t0 eps heps => ?_⟩
  · simp [is_held, record, lastSeenGet, List.lookup, KEY_HOLD_TIME]
    norm_num
  · simp [is_held, record, lastSeenGet, List.lookup]
    linarith

/-- Witness for C7 at a concrete state and a concrete `eps`. -/
theorem c7_witness :
    is_held (record [] "w" 0) "w" (0 + KEY_HOLD_TIME + 1) = false :=
  c7_is_held_window.2.2 [] "w" 0 1 (by norm_num)

/-- C10: a never-recorded key defaults to last-seen time `0`, so it is
reported held exactly on the window `now ≤ KEY_HOLD_TIME`: not held at any
later query time, but held at any query time in `[0, KEY_HOLD_TIME]`. -/
theorem c10_default_timestamp (s : List (String × ℚ)) (k : String) (now : ℚ)
    (h : s.lookup k = none) :
    lastSeenGet s k = 0 ∧
    (is_held s k now = true ↔ now ≤ KEY_HOLD_TIME) ∧
    (KEY_HOLD_TIME < now → is_held s k now = false) ∧
    (0 ≤ now → now ≤ KEY_HOLD_TIME → is_held s k now = true) := by
  have hl : lastSeenGet s k = 0 := by simp [lastSeenGet, h]
  refine ⟨hl, ?_, ?_, ?_⟩
  · simp [is_held, hl]
  · intro hnow
    simp [is_held, hl]
    linarith
  · intro _ hnow
    simp [is_held, hl]
    linarith

/-- Witness for C10: with an empty debounce map, a never-pressed key is
not held at time 1 (which is past the 0.32s window). -/
theorem c10_witness : is_held [] "z" 1 = false :=
  (c10_default_timestamp [] "z" 1 rfl).2.2.1 (by norm_num [KEY_HOLD_TIME])

/-- One tilt tick keeps the tilt inside `[-TILT_LIMIT, TILT_LIMIT]`. -/
theorem tiltStep_bounds {t : ℤ} (h1 : -TILT_LIMIT ≤ t) (h2 : t ≤ TILT_LIMIT)
    (up down : Bool) :
    -TILT_LIMIT ≤ tiltStep up down t ∧ tiltStep up down t ≤ TILT_LIMIT := by
  cases up <;> cases down <;>
    simp [tiltStep, TILT_LIMIT, TILT_STEP] at * <;> omega

/-- C8: starting from 0, any sequence of ticks with any held keys keeps
`camera_tilt` in `[-TILT_LIMIT, TILT_LIMIT]`; a `look_down`-only tick adds
`TILT_STEP` while below the limit and saturates at `TILT_LIMIT`; a
`look_up`-only tick is symmetric at `-TILT_LIMIT`. -/
theorem c8_tilt_saturates :
    (∀ ticks : List (Bool × Bool),
      -TILT_LIMIT ≤ ticks.foldl (fun t k => tiltStep k.1 k.2 t) 0 ∧
      ticks.foldl (fun t k => tiltStep k.1 k.2 t) 0 ≤ TILT_LIMIT) ∧
    (∀ t : ℤ, t < TILT_LIMIT → tiltStep false true t = t + TILT_STEP) ∧
    (tiltStep false true TILT_LIMIT = TILT_LIMIT) ∧
    (∀ t : ℤ, -TILT_LIMIT < t → tiltStep true false t = t - TILT_STEP) ∧
    (tiltStep true false (-TILT_LIMIT) = -TILT_LIMIT) := by
  refine ⟨fun ticks => ?_, fun t ht => ?_, by decide, fun t ht => ?_, by decide⟩
  · suffices h : ∀ (l : List (Bool × Bool)) (t : ℤ),
        -TILT_LIMIT ≤ t → t ≤ TILT_LIMIT →
        -TILT_LIMIT ≤ l.foldl (fun t k => tiltStep k.1 k.2 t) t ∧
        l.foldl (fun t k => tiltStep k.1 k.2 t) t ≤ TILT_LIMIT by
      exact h ticks 0 (by decide) (by decide)
    intro l
    induction l with
    | nil => exact fun t h1 h2 => ⟨h1, h2⟩
    | cons hd tl ih =>
      intro t h1 h2
      have := tiltStep_bounds h1 h2 hd.1 hd.2
      exact ih _ this.1 this.2
  · have hstep : tiltStep false true t = min TILT_LIMIT (t + TILT_STEP) := rfl
    rw [hstep]
    simp only [TILT_LIMIT, TILT_STEP] at ht ⊢
    omega
  · have hstep : tiltStep true false t = max (-TILT_LIMIT) (t - TILT_STEP) := rfl
    rw [hstep]
    simp only [TILT_LIMIT, TILT_STEP] at ht ⊢
    omega

/-- Witness for C8: a `look_down` tick at tilt 5 yields 6. -/
theorem c8_witness : tiltStep false true 5 = 5 + TILT_STEP :=
  c8_tilt_saturates.2.1 5 (by decide)

/-- C2 counterexample: at screen height 4, cast distance 15 and
`camera_tilt = -10` (which is inside `[-TILT_LIMIT, TILT_LIMIT]`), the
slice start is 12, which exceeds the height — `start` is not clamped into
`[0, height]` as the claim states. -/
theorem c2_counterexample :
    sliceStart 4 15 (-10) = 12 ∧ ¬ (sliceStart 4 15 (-10) ≤ (4 : ℤ)) := by
  have hw : wall_h 4 15 = 0 := by
    unfold wall_h
    rw [pyInt_of_nonneg (by norm_num)]
    norm_num
  constructor
  · unfold sliceStart
    rw [hw]
    simp [horizon]
  · unfold sliceStart
    rw [hw]
    simp [horizon]

/-- C2 amended: the code only lower-clamps `start` (as `max(0, ·)`) and
only upper-clamps `end` (as `min(height, ·)`), so for every height, cast
distance and tilt, `0 ≤ start` and `end ≤ height` hold — but `start` can
exceed `height` and `end` can be negative. -/
theorem c2_one_sided_clamp (h : ℕ) (dist : ℝ) (tilt : ℤ) :
    0 ≤ sliceStart h dist tilt ∧ sliceEnd h dist tilt ≤ (h : ℤ) :=
  ⟨le_max_left _ _, min_le_left _ _⟩

/-- C6: whenever the combined movement vector is nonzero (the condition of
source line 242), the candidate displacement has Euclidean length exactly
`MOVE_STEP`: diagonal movement is normalized, not `sqrt 2` times faster. -/
theorem c6_normalized_step (hw hs ha hd : Bool) (ang px py : ℝ)
    (h : moveX hw hs ha hd ang ≠ 0 ∨ moveY hw hs ha hd ang ≠ 0) :
    Real.sqrt (((candidate hw hs ha hd ang px py).1 - px) ^ 2 +
               ((candidate hw hs ha hd ang px py).2 - py) ^ 2) = MOVE_STEP := by
  set a := moveX hw hs ha hd ang with ha'
  set b := moveY hw hs ha hd ang with hb'
  have hpos : 0 < a ^ 2 + b ^ 2 := by
    rcases h with h | h
    · have : 0 < a ^ 2 := by positivity
      nlinarith [sq_nonneg b]
    · have : 0 < b ^ 2 := by positivity
      nlinarith [sq_nonneg a]
  have hL : Real.sqrt (a ^ 2 + b ^ 2) ^ 2 = a ^ 2 + b ^ 2 := Real.sq_sqrt hpos.le
  have hLpos : 0 < Real.sqrt (a ^ 2 + b ^ 2) := Real.sqrt_pos.mpr hpos
  have h1 : (candidate hw hs ha hd ang px py).1 - px
      = a / Real.sqrt (a ^ 2 + b ^ 2) * MOVE_STEP := by
    simp [candidate]
  have h2 : (candidate hw hs ha hd ang px py).2 - py
      = b / Real.sqrt (a ^ 2 + b ^ 2) * MOVE_STEP := by
    simp [candidate]
  rw [h1, h2]
  have hsum : (a / Real.sqrt (a ^ 2 + b ^ 2) * MOVE_STEP) ^ 2 +
      (b / Real.sqrt (a ^ 2 + b ^ 2) * MOVE_STEP) ^ 2 = MOVE_STEP ^ 2 := by
    field_simp
    nlinarith [hL]
  rw [hsum]
  exact Real.sqrt_sq (by norm_num [MOVE_STEP])

/-- Witness for C6: holding only `w` at angle 0 from the origin gives a
step of length exactly `MOVE_STEP`. -/
theorem c6_witness :
    Real.sqrt (((candidate true false false false 0 0 0).1 - 0) ^ 2 +
               ((candidate true false false false 0 0 0).2 - 0) ^ 2) = MOVE_STEP :=
  c6_normalized_step true false false false 0 0 0
    (Or.inl (by simp [moveX]))

/-- If no step in the remaining budget exits, the march falls through to
the fallback result `(15.0, px, py, false)`. -/
theorem castLoop_fallback (grid : List String) (px py cosA sinA : ℝ) :
    ∀ (fuel d : ℕ),
      (∀ e, d ≤ e → e < d + fuel → ¬ exitAt grid px py cosA sinA e) →
      castLoop grid px py cosA sinA d fuel = ⟨15, px, py, false⟩ := by
  intro fuel
  induction fuel with
  | zero => intro d _; rfl
  | succ fuel ih =>
    intro d h
    have hd : ¬ exitAt grid px py cosA sinA d := h d le_rfl (by omega)
    unfold exitAt at hd
    rw [castLoop, if_neg (fun ho => hd (Or.inl ho)), if_neg (fun hc => hd (Or.inr hc))]
    exact ih (d + 1) (fun e he1 he2 => h e (by omega) (by omega))

/-- The march returns at the first exiting step when that step is out of
bounds: the traveled distance, the sample point, and `false`. -/
theorem castLoop_first_exit_oob (grid : List String) (px py cosA sinA : ℝ) :
    ∀ (fuel d e : ℕ), d ≤ e → e < d + fuel →
      oob grid (sampleX px cosA e) (sampleY py sinA e) →
      (∀ i, d ≤ i → i < e → ¬ exitAt grid px py cosA sinA i) →
      castLoop grid px py cosA sinA d fuel =
        ⟨(e : ℝ) * 0.03, sampleX px cosA e, sampleY py sinA e, false⟩ := by
  intro fuel
  induction fuel with
  | zero => intro d e h1 h2 _ _; omega
  | succ fuel ih =>
    intro d e h1 h2 hex hpre
    rcases eq_or_lt_of_le h1 with rfl | hlt
    · rw [castLoop, if_pos hex]
    · have hd : ¬ exitAt grid px py cosA sinA d := hpre d le_rfl hlt
      unfold exitAt at hd
      rw [castLoop, if_neg (fun ho => hd (Or.inl ho)), if_neg (fun hc => hd (Or.inr hc))]
      exact ih (d + 1) e hlt (by omega) hex (fun i hi1 hi2 => hpre i (by omega) hi2)

open Classical in
/-- The march returns at the first exiting step when that step is an
in-bounds wall cell: the traveled distance, the sample point, and the
`|cos_a| > |sin_a|` face heuristic. -/
theorem castLoop_first_exit_wall (grid : List String) (px py cosA sinA : ℝ) :
    ∀ (fuel d e : ℕ), d ≤ e → e < d + fuel →
      ¬ oob grid (sampleX px cosA e) (sampleY py sinA e) →
      cellAt grid (pyInt (sampleY py sinA e)) (pyInt (sampleX px cosA e)) = '#' →
      (∀ i, d ≤ i → i < e → ¬ exitAt grid px py cosA sinA i) →
      castLoop grid px py cosA sinA d fuel =
        ⟨(e : ℝ) * 0.03, sampleX px cosA e, sampleY py sinA e,
          if |cosA| > |sinA| then true else false⟩ := by
  intro fuel
  induction fuel with
  | zero => intro d e h1 h2 _ _ _; omega
  | succ fuel ih =>
    intro d e h1 h2 ho hc hpre
    rcases eq_or_lt_of_le h1 with rfl | hlt
    · rw [castLoop, if_neg ho, if_pos hc]
    · have hd : ¬ exitAt grid px py cosA sinA d := hpre d le_rfl hlt
      unfold exitAt at hd
      rw [castLoop, if_neg (fun hoo => hd (Or.inl hoo)), if_neg (fun hcc => hd (Or.inr hcc))]
      exact ih (d + 1) e hlt (by omega) ho hc (fun i hi1 hi2 => hpre i (by omega) hi2)

/-- If some step in the remaining budget exits and the budget respects
`d + fuel ≤ 400`, the returned distance is at most `399 * 0.03 = 11.97`. -/
theorem castLoop_dist_le (grid : List String) (px py cosA sinA : ℝ) :
    ∀ (fuel d : ℕ), d + fuel ≤ 400 →
      (∃ e, d ≤ e ∧ e < d + fuel ∧ exitAt grid px py cosA sinA e) →
      (castLoop grid px py cosA sinA d fuel).distance ≤ 11.97 := by
  intro fuel
  induction fuel with
  | zero =>
    rintro d _ ⟨e, h1, h2, _⟩
    omega
  | succ fuel ih =>
    rintro d hle ⟨e, h1, h2, hex⟩
    have hd399 : (d : ℝ) ≤ 399 := by
      have : d ≤ 399 := by omega
      exact_mod_cast this
    rw [castLoop]
    by_cases ho : oob grid (sampleX px cosA d) (sampleY py sinA d)
    · rw [if_pos ho]
      show (d : ℝ) * 0.03 ≤ 11.97
      nlinarith
    · rw [if_neg ho]
      by_cases hc : cellAt grid (pyInt (sampleY py sinA d)) (pyInt (sampleX px cosA d)) = '#'
      · rw [if_pos hc]
        show (d : ℝ) * 0.03 ≤ 11.97
        nlinarith
      · rw [if_neg hc]
        apply ih (d + 1) (by omega)
        have hde : d ≠ e := by
          rintro rfl
          unfold exitAt at hex
          rcases hex with h | h
          exacts [ho h, hc h]
        exact ⟨e, by omega, by omega, hex⟩

/-- C3 amended: if every marched sample in steps 1..399 is in bounds and
none lands on a wall cell, `cast_ray` returns exactly the fallback
`(15.0, px, py, false)`.  (The original claim omitted the in-bounds
condition; a ray that escapes the grid returns its traveled distance and
the out-of-bounds coordinates instead.) -/
theorem c3_fallback_distance (grid : List String) (px py angle : ℝ)
    (h : ∀ e : ℕ, 1 ≤ e → e ≤ 399 →
      ¬ oob grid (sampleX px (Real.cos angle) e) (sampleY py (Real.sin angle) e) ∧
      cellAt grid (pyInt (sampleY py (Real.sin angle) e))
        (pyInt (sampleX px (Real.cos angle) e)) ≠ '#') :
    cast_ray grid px py angle = ⟨15, px, py, false⟩ := by
  unfold cast_ray
  apply castLoop_fallback
  intro e he1 he2
  rcases h e he1 (by omega) with ⟨h1, h2⟩
  unfold exitAt
  rintro (ho | hc)
  exacts [h1 ho, h2 hc]

open Classical in
/-- C5: if the first exiting step `e` of the march lands on an in-bounds
wall cell (every earlier step being in bounds and off-wall), `cast_ray`
returns distance `e * 0.03`, the sample coordinates of step `e`, and the
face heuristic `|cos angle| > |sin angle|`. -/
theorem c5_first_wall_hit (grid : List String) (px py angle : ℝ) (e : ℕ)
    (he1 : 1 ≤ e) (he2 : e ≤ 399)
    (hin : ¬ oob grid (sampleX px (Real.cos angle) e) (sampleY py (Real.sin angle) e))
    (hwall : cellAt grid (pyInt (sampleY py (Real.sin angle) e))
      (pyInt (sampleX px (Real.cos angle) e)) = '#')
    (hpre : ∀ i : ℕ, 1 ≤ i → i < e →
      ¬ oob grid (sampleX px (Real.cos angle) i) (sampleY py (Real.sin angle) i) ∧
      cellAt grid (pyInt (sampleY py (Real.sin angle) i))
        (pyInt (sampleX px (Real.cos angle) i)) ≠ '#') :
    (cast_ray grid px py angle).distance = (e : ℝ) * 0.03 ∧
    (cast_ray grid px py angle).hit_x = sampleX px (Real.cos angle) e ∧
    (cast_ray grid px py angle).hit_y = sampleY py (Real.sin angle) e ∧
    ((cast_ray grid px py angle).is_vertical_face = true ↔
      |Real.cos angle| > |Real.sin angle|) := by
  have hnp : ∀ i, 1 ≤ i → i < e →
      ¬ exitAt grid px py (Real.cos angle) (Real.sin angle) i := by
    intro i h1 h2
    rcases hpre i h1 h2 with ⟨a, b⟩
    unfold exitAt
    rintro (ho | hc)
    exacts [a ho, b hc]
  have hres : cast_ray grid px py angle =
      ⟨(e : ℝ) * 0.03, sampleX px (Real.cos angle) e, sampleY py (Real.sin angle) e,
        if |Real.cos angle| > |Real.sin angle| then true else false⟩ := by
    unfold cast_ray
    rw [castLoop_first_exit_wall grid px py (Real.cos angle) (Real.sin angle) 399 1 e he1
      (by omega) hin hwall hnp]
  rw [hres]
  refine ⟨rfl, rfl, rfl, ?_⟩
  by_cases hv : |Real.cos angle| > |Real.sin angle|
  · simp [hv]
  · simp [hv]

/-- A row of `noWallGrid` holds no wall character at any index. -/
theorem noRowWall : ∀ m : ℕ, "..".toList.getD m '?' ≠ '#' := by
  intro m
  match m with
  | 0 => decide
  | 1 => decide
  | m + 2 =>
    rw [List.getD_eq_default]
    · decide
    · show "..".toList.length ≤ m + 2
      norm_num [String.length]

/-- `noWallGrid` holds no wall cell at any coordinates. -/
theorem noWallGrid_no_wall : ∀ r c : ℤ, cellAt noWallGrid r c ≠ '#' := by
  intro r c
  unfold cellAt noWallGrid
  rcases hn : r.toNat with _ | n
  · exact noRowWall c.toNat
  · rcases n with _ | n
    · exact noRowWall c.toNat
    · rw [List.getD_eq_default]
      · simp
      · simp

/-- Lengths of the auxiliary grids, for bounds reasoning. -/
theorem noWallGrid_dims :
    (noWallGrid.length : ℤ) = 2 ∧ ((noWallGrid.headD "").length : ℤ) = 2 := by
  constructor <;> decide

/-- C3 counterexample: against `noWallGrid` (a grid with no wall cell at
all, hence no marched sample can land on a wall) from `(0.5, 0.5)` at
angle 0, `cast_ray` does not return the fallback `(15.0, origin, false)`:
the ray escapes the grid at step 50 and the code returns `1.5` with the
out-of-bounds coordinates. -/
theorem c3_counterexample :
    (∀ e : ℕ, 1 ≤ e → e ≤ 399 →
      cellAt noWallGrid (pyInt (sampleY 0.5 (Real.sin 0) e))
        (pyInt (sampleX 0.5 (Real.cos 0) e)) ≠ '#') ∧
    cast_ray noWallGrid 0.5 0.5 0 ≠ ⟨15, 0.5, 0.5, false⟩ := by
  constructor
  · intro e _ _
    exact noWallGrid_no_wall _ _
  · have hpy : pyInt (sampleY 0.5 (Real.sin 0) 50) = 0 := by
      unfold sampleY
      rw [Real.sin_zero, pyInt_of_nonneg (by norm_num)]
      norm_num
    have hx50 : sampleX 0.5 (Real.cos 0) 50 = 2 := by
      unfold sampleX
      rw [Real.cos_zero]
      norm_num
    have hres : cast_ray noWallGrid 0.5 0.5 0 =
        ⟨((50 : ℕ) : ℝ) * 0.03, sampleX 0.5 (Real.cos 0) 50,
          sampleY 0.5 (Real.sin 0) 50, false⟩ := by
      unfold cast_ray
      apply castLoop_first_exit_oob noWallGrid 0.5 0.5 _ _ 399 1 50 (by omega) (by omega)
      · unfold oob
        right; right; right
        rw [hx50, noWallGrid_dims.2, pyInt_of_nonneg (by norm_num)]
        norm_num
      · intro i h1 h2
        have hi1 : (1 : ℝ) ≤ (i : ℝ) := by exact_mod_cast h1
        have hi49 : (i : ℝ) ≤ 49 := by exact_mod_cast (by omega : i ≤ 49)
        have hy : sampleY 0.5 (Real.sin 0) i = 0.5 := by
          unfold sampleY
          rw [Real.sin_zero]
          ring
        have hx0 : (0 : ℝ) ≤ sampleX 0.5 (Real.cos 0) i := by
          unfold sampleX
          rw [Real.cos_zero]
          nlinarith
        have hx2 : sampleX 0.5 (Real.cos 0) i < 2 := by
          unfold sampleX
          rw [Real.cos_zero]
          nlinarith
        have hpyi : pyInt (sampleY 0.5 (Real.sin 0) i) = 0 := by
          rw [hy, pyInt_of_nonneg (by norm_num)]
          norm_num
        have hpx0 : (0 : ℤ) ≤ pyInt (sampleX 0.5 (Real.cos 0) i) := by
          simpa using le_pyInt (n := 0) (by simpa using hx0)
        have hpx2 : pyInt (sampleX 0.5 (Real.cos 0) i) < 2 :=
          pyInt_lt hx0 (by exact_mod_cast hx2)
        unfold exitAt
        rintro (ho | hc)
        · unfold oob at ho
          rw [hpyi, noWallGrid_dims.1, noWallGrid_dims.2] at ho
          rcases ho with h | h | h | h <;> omega
        · exact noWallGrid_no_wall _ _ hc
    rw [hres]
    intro hcontra
    have hdist := congrArg RayHit.distance hcontra
    simp only at hdist
    norm_num at hdist

/-- Every in-range cell of `bigGrid` is a floor cell. -/
theorem bigGrid_cells :
    ∀ n : ℕ, n < 30 → ∀ m : ℕ, m < 30 → (bigGrid.getD n "").toList.getD m '?' = '.' := by
  decide

/-- Dimensions of `bigGrid`. -/
theorem bigGrid_dims :
    (bigGrid.length : ℤ) = 30 ∧ ((bigGrid.headD "").length : ℤ) = 30 := by
  constructor <;> decide

/-- Witness for C3 (amended): from the center of the all-floor 30 by 30
grid at angle 0 every sample of the budget stays in bounds off-wall, so
the cast returns exactly the fallback. -/
theorem c3_witness : cast_ray bigGrid 15 15 0 = ⟨15, 15, 15, false⟩ := by
  apply c3_fallback_distance
  intro e he1 he2
  have he1' : (1 : ℝ) ≤ (e : ℝ) := by exact_mod_cast he1
  have he2' : (e : ℝ) ≤ 399 := by exact_mod_cast he2
  have hy : sampleY 15 (Real.sin 0) e = 15 := by
    unfold sampleY
    rw [Real.sin_zero]
    ring
  have hx15 : (15 : ℝ) ≤ sampleX 15 (Real.cos 0) e := by
    unfold sampleX
    rw [Real.cos_zero]
    nlinarith
  have hx30 : sampleX 15 (Real.cos 0) e < 30 := by
    unfold sampleX
    rw [Real.cos_zero]
    nlinarith
  have hpy : pyInt (sampleY 15 (Real.sin 0) e) = 15 := by
    rw [hy, pyInt_of_nonneg (by norm_num)]
    norm_num
  have hpx15 : (15 : ℤ) ≤ pyInt (sampleX 15 (Real.cos 0) e) := by
    simpa using le_pyInt (n := 15) (by simpa using hx15)
  have hpx30 : pyInt (sampleX 15 (Real.cos 0) e) < 30 :=
    pyInt_lt (by linarith) (by exact_mod_cast hx30)
  constructor
  · unfold oob
    rw [hpy, bigGrid_dims.1, bigGrid_dims.2]
    rintro (h | h | h | h) <;> omega
  · rw [hpy]
    unfold cellAt
    have hc := bigGrid_cells (15 : ℤ).toNat (by decide)
      (pyInt (sampleX 15 (Real.cos 0) e)).toNat (by omega)
    rw [hc]
    decide

/-- Witness for C5: against the 1 by 1 wall grid from `(0.2, 0.2)` at
angle 0, the very first step hits the wall, with distance `0.03`, the
step-1 sample coordinates, and a vertical face. -/
theorem c5_witness :
    (cast_ray oneWallGrid 0.2 0.2 0).distance = ((1 : ℕ) : ℝ) * 0.03 ∧
    (cast_ray oneWallGrid 0.2 0.2 0).hit_x = sampleX 0.2 (Real.cos 0) 1 ∧
    (cast_ray oneWallGrid 0.2 0.2 0).hit_y = sampleY 0.2 (Real.sin 0) 1 ∧
    ((cast_ray oneWallGrid 0.2 0.2 0).is_vertical_face = true ↔
      |Real.cos 0| > |Real.sin 0|) := by
  have hpx : pyInt (sampleX 0.2 (Real.cos 0) 1) = 0 := by
    unfold sampleX
    rw [Real.cos_zero, pyInt_of_nonneg (by norm_num)]
    norm_num
  have hpy : pyInt (sampleY 0.2 (Real.sin 0) 1) = 0 := by
    unfold sampleY
    rw [Real.sin_zero, pyInt_of_nonneg (by norm_num)]
    norm_num
  apply c5_first_wall_hit oneWallGrid 0.2 0.2 0 1 (by omega) (by omega)
  · unfold oob
    rw [hpx, hpy]
    rintro (h | h | h | h) <;> revert h <;> decide
  · rw [hpx, hpy]
    decide
  · intro i h1 h2
    omega

/-- Dimensions of `MAP`: 6 rows of 12 cells. -/
theorem MAP_dims : (MAP.length : ℤ) = 6 ∧ ((MAP.headD "").length : ℤ) = 12 := by
  constructor <;> decide

/-- Every border cell of `MAP` is a wall. -/
theorem MAP_border :
    ∀ n : ℕ, n < 6 → ∀ m : ℕ, m < 12 → (n = 0 ∨ n = 5 ∨ m = 0 ∨ m = 11) →
      (MAP.getD n "").toList.getD m '?' = '#' := by
  decide

/-- Border cells of `MAP`, in integer-index form. -/
theorem MAP_wall_cell {r c : ℤ} (hr0 : 0 ≤ r) (hr6 : r < 6) (hc0 : 0 ≤ c)
    (hc12 : c < 12) (hb : r = 0 ∨ r = 5 ∨ c = 0 ∨ c = 11) :
    cellAt MAP r c = '#' := by
  unfold cellAt
  exact MAP_border r.toNat (by omega) c.toNat (by omega) (by omega)

/-- Any sample point outside the open interior box `[1,11] x [1,5]` of
`MAP` is either out of bounds or on a wall cell: the whole border of
`MAP` is wall, and sub-unit overshoot still truncates into the border
columns/rows while larger overshoot leaves the grid. -/
theorem MAP_exit_of_outside {X Y : ℝ}
    (h : X < 1 ∨ 11 < X ∨ Y < 1 ∨ 5 < Y) :
    oob MAP X Y ∨ cellAt MAP (pyInt Y) (pyInt X) = '#' := by
  unfold oob
  rw [MAP_dims.1, MAP_dims.2]
  rcases h with h | h | h | h
  · have hx : pyInt X ≤ 0 := pyInt_le_zero h
    by_cases hneg : pyInt X < 0
    · exact Or.inl (Or.inr (Or.inr (Or.inl hneg)))
    · have hx0 : pyInt X = 0 := by omega
      by_cases hy1 : pyInt Y < 0
      · exact Or.inl (Or.inl hy1)
      · by_cases hy2 : (6 : ℤ) ≤ pyInt Y
        · exact Or.inl (Or.inr (Or.inl hy2))
        · right
          rw [hx0]
          exact MAP_wall_cell (by omega) (by omega) (by omega) (by omega) (by omega)
  · have hx : (11 : ℤ) ≤ pyInt X := by
      simpa using le_pyInt (n := 11) (by exact_mod_cast h.le)
    by_cases hge : (12 : ℤ) ≤ pyInt X
    · exact Or.inl (Or.inr (Or.inr (Or.inr hge)))
    · have hx11 : pyInt X = 11 := by omega
      by_cases hy1 : pyInt Y < 0
      · exact Or.inl (Or.inl hy1)
      · by_cases hy2 : (6 : ℤ) ≤ pyInt Y
        · exact Or.inl (Or.inr (Or.inl hy2))
        · right
          rw [hx11]
          exact MAP_wall_cell (by omega) (by omega) (by omega) (by omega) (by omega)
  · have hy : pyInt Y ≤ 0 := pyInt_le_zero h
    by_cases hneg : pyInt Y < 0
    · exact Or.inl (Or.inl hneg)
    · have hy0 : pyInt Y = 0 := by omega
      by_cases hx1 : pyInt X < 0
      · exact Or.inl (Or.inr (Or.inr (Or.inl hx1)))
      · by_cases hx2 : (12 : ℤ) ≤ pyInt X
        · exact Or.inl (Or.inr (Or.inr (Or.inr hx2)))
        · right
          rw [hy0]
          exact MAP_wall_cell (by omega) (by omega) (by omega) (by omega) (by omega)
  · have hy : (5 : ℤ) ≤ pyInt Y := by
      simpa using le_pyInt (n := 5) (by exact_mod_cast h.le)
    by_cases hge : (6 : ℤ) ≤ pyInt Y
    · exact Or.inl (Or.inr (Or.inl hge))
    · have hy5 : pyInt Y = 5 := by omega
      by_cases hx1 : pyInt X < 0
      · exact Or.inl (Or.inr (Or.inr (Or.inl hx1)))
      · by_cases hx2 : (12 : ℤ) ≤ pyInt X
        · exact Or.inl (Or.inr (Or.inr (Or.inr hx2)))
        · right
          rw [hy5]
          exact MAP_wall_cell (by omega) (by omega) (by omega) (by omega) (by omega)

/-- C4: from any origin in the interior floor region of `MAP` (the box
`[1,11] x [1,5]`, which contains every position whose truncated cell is a
floor cell) and for every angle, `cast_ray` returns a distance of at most
12.0: the unit-speed march must leave the interior within 10.8 units
(step 360), and it then either hits the wall border or leaves the grid,
so the loop exits before the step budget and never reaches the 15.0
fallback. -/
theorem c4_bounded_distance (px py angle : ℝ)
    (hx1 : 1 ≤ px) (hx2 : px ≤ 11) (hy1 : 1 ≤ py) (hy2 : py ≤ 5) :
    (cast_ray MAP px py angle).distance ≤ 12 := by
  have hX : sampleX px (Real.cos angle) 360 = px + Real.cos angle * 10.8 := by
    unfold sampleX
    push_cast
    ring
  have hY : sampleY py (Real.sin angle) 360 = py + Real.sin angle * 10.8 := by
    unfold sampleY
    push_cast
    ring
  have hexit : exitAt MAP px py (Real.cos angle) (Real.sin angle) 360 := by
    unfold exitAt
    apply MAP_exit_of_outside
    rw [hX, hY]
    by_contra hcon
    push_neg at hcon
    obtain ⟨h1, h2, h3, h4⟩ := hcon
    have l1 : Real.cos angle * 10.8 ≤ 10 := by linarith
    have l2 : -10 ≤ Real.cos angle * 10.8 := by linarith
    have l3 : Real.sin angle * 10.8 ≤ 4 := by linarith
    have l4 : -4 ≤ Real.sin angle * 10.8 := by linarith
    have hc2 : (Real.cos angle * 10.8) ^ 2 ≤ 100 := by nlinarith
    have hs2 : (Real.sin angle * 10.8) ^ 2 ≤ 16 := by nlinarith
    nlinarith [Real.sin_sq_add_cos_sq angle, hc2, hs2]
  have hle := castLoop_dist_le MAP px py (Real.cos angle) (Real.sin angle) 399 1
    (by omega) ⟨360, by omega, by omega, hexit⟩
  unfold cast_ray
  linarith

/-- Witness for C4 at the player start position and angle 0. -/
theorem c4_witness : (cast_ray MAP 3 3 0).distance ≤ 12 :=
  c4_bounded_distance 3 3 0 (by norm_num) (by norm_num) (by norm_num) (by norm_num)

/-- One movement frame preserves the floor-cell invariant: the candidate
is committed only when it passes the collision check (which is the
invariant itself), and otherwise the position is unchanged. -/
theorem moveUpdate_preserves (hw hs ha hd : Bool) (ang : ℝ) {p : ℝ × ℝ}
    (hp : posInv p) : posInv (moveUpdate hw hs ha hd ang p) := by
  unfold moveUpdate
  split_ifs with h1 h2
  · exact h2
  · exact hp
  · exact hp

/-- C1: starting at the floor cell `(3.0, 3.0)`, every state reachable by
any sequence of movement frames (with any held-key combination and any
facing angle per frame) keeps the truncated player cell an in-bounds floor
cell of `MAP`. -/
theorem c1_floor_invariant (ticks : List (Bool × Bool × Bool × Bool × ℝ)) :
    posInv (ticks.foldl
      (fun p k => moveUpdate k.1 k.2.1 k.2.2.1 k.2.2.2.1 k.2.2.2.2 p)
      ((3 : ℝ), (3 : ℝ))) := by
  have h3 : pyInt ((3 : ℝ)) = 3 := by
    rw [pyInt_of_nonneg (by norm_num)]
    norm_num
  have base : posInv ((3 : ℝ), (3 : ℝ)) := by
    unfold posInv
    dsimp only
    rw [h3, MAP_dims.1, MAP_dims.2]
    refine ⟨by norm_num, by norm_num, by norm_num, by norm_num, by decide⟩
  suffices h : ∀ (l : List (Bool × Bool × Bool × Bool × ℝ)) (p : ℝ × ℝ),
      posInv p →
      posInv (l.foldl (fun p k => moveUpdate k.1 k.2.1 k.2.2.1 k.2.2.2.1 k.2.2.2.2 p) p) by
    exact h ticks _ base
  intro l
  induction l with
  | nil => exact fun p hp => hp
  | cons hd tl ih =>
    intro p hp
    exact ih _ (moveUpdate_preserves _ _ _ _ _ hp)

/-- Every write emitted by `renderColumn` carries the column it was
invoked for. -/
theorem renderColumn_col (h w : ℕ) (px py ang : ℝ) (tilt : ℤ) (col : ℕ)
    {wr : ScreenWrite} (hwr : wr ∈ renderColumn h w px py ang tilt col) :
    wr.col = col := by
  unfold renderColumn at hwr
  simp only [List.mem_append, List.mem_map, List.mem_range] at hwr
  rcases hwr with (⟨i, hi, rfl⟩ | ⟨i, hi, rfl⟩) | ⟨i, hi, rfl⟩ <;> rfl

/-- C9: for every screen size and player state, every character write
emitted by `render_scene` targets a column `col` with `col + 2 ≤ w`
(that is, `0 ≤ col ≤ w - 2`); no write ever targets the last column. -/
theorem c9_no_last_column (h w : ℕ) (px py ang : ℝ) (tilt : ℤ) :
    (render_scene h w px py ang tilt).all (fun wr => decide (wr.col + 2 ≤ w)) = true := by
  rw [List.all_eq_true]
  intro wr hwr
  unfold render_scene at hwr
  rw [List.mem_flatMap] at hwr
  obtain ⟨col, hcol, hwr⟩ := hwr
  rw [List.mem_range] at hcol
  have hc := renderColumn_col h w px py ang tilt col hwr
  rw [decide_eq_true_iff, hc]
  omega

end Raycaster
